import Mathlib

-- Shallow embedding of django-rehive-extras (django_rehive_extras/models.py,
-- mixins.py, utils/copy.py), with theorems checking the repository's
-- specification claims against the embedded code.
--
-- Conventions used throughout the embedding:
-- * Model classes are identified by their lower-cased class name (the code
--   only ever compares classes or formats their lower-cased names).
-- * Python attribute values are modelled by their object identity, a `Nat`;
--   copying a value "directly" therefore preserves the identity.
-- * Postgres array columns (`archive_points`) are `Option (List String)`:
--   `none` is SQL NULL, mirroring `null=True` on the field.

namespace DjangoRehiveExtras

/-- Postgres `array_append(a, v)`: appending to NULL yields a one-element
array. Used by the `ArrayAppend` expression in models.py. -/
def arrayAppend : Option (List String) → String → Option (List String)
  | none, v => some [v]
  | some l, v => some (l ++ [v])

/-- Postgres `array_remove(a, v)`: removes every occurrence of `v`; NULL stays
NULL. Used by the `ArrayRemove` expression in models.py. -/
def arrayRemove : Option (List String) → String → Option (List String)
  | none, _ => none
  | some l, v => some (l.filter (fun x => x ≠ v))

/-- The `archive_points__contains=[point]` lookup: array containment, false on
NULL (SQL NULL comparison does not match a `When` condition). -/
def arrayContains : Option (List String) → String → Bool
  | none, _ => false
  | some l, v => l.contains v

/-- The `archive_points__len` lookup (Django's `ArrayLenTransform`): NULL on a
NULL array, `coalesce(array_length(a, 1), 0)` otherwise. -/
def arrayLen : Option (List String) → Option Nat
  | none => none
  | some l => some l.length

/-- Number of occurrences of a tag in an array column (0 for NULL). -/
def apCount : Option (List String) → String → Nat
  | none, _ => 0
  | some l, v => l.count v

/-- Python truthiness of `self.archive_points`: `None` and `[]` are falsy. -/
def apTruthy : Option (List String) → Bool
  | none => false
  | some [] => false
  | some (_ :: _) => true

/-- The two columns of a dependent row touched by the cascade bulk update in
`ArchiveNode.update_queryset`. -/
structure ArchiveRow where
  archived : Bool
  archive_points : Option (List String)
deriving DecidableEq

/-- Row transformer of the `archived is True` branch of
`ArchiveNode.update_queryset` (models.py lines 138-151): `archived=True`
unconditionally; `archive_points` unchanged when it already contains `point`,
otherwise `array_append`-ed. Both right-hand sides read the pre-update row,
as a single SQL UPDATE does. -/
def archiveRowUpdate (point : String) (r : ArchiveRow) : ArchiveRow :=
  { archived := true
    archive_points :=
      if arrayContains r.archive_points point then r.archive_points
      else arrayAppend r.archive_points point }

/-- Row transformer of the `archived is False` branch of
`ArchiveNode.update_queryset` (models.py lines 156-170): `archived` becomes
`False` only when the pre-update array contains `point` and has length 1
(both `When` conditions), otherwise keeps its pre-update value (`F`); the
array has `point` removed via `array_remove`. -/
def unarchiveRowUpdate (point : String) (r : ArchiveRow) : ArchiveRow :=
  { archived :=
      if arrayContains r.archive_points point ∧ arrayLen r.archive_points = some 1
      then false else r.archived
    archive_points := arrayRemove r.archive_points point }

/-- `ArchiveNode.update_queryset(queryset, archived, point)`: the bulk update
applies the matching row transformer to every matched row. -/
def update_queryset (archived : Bool) (point : String) (qs : List ArchiveRow) :
    List ArchiveRow :=
  if archived then qs.map (archiveRowUpdate point)
  else qs.map (unarchiveRowUpdate point)

/-- One entry of `model._meta.get_fields()` as consumed by
`ArchiveNode.expand`: `relName` is the already-resolved inverse relation name
(`f.field.name` or `f.remote_field.name`), `relatedModel` is the lower-cased
name of `f.related_model` (none when the field is not a relation). -/
structure MField where
  relName : String
  relatedModel : Option String
  one_to_many : Bool
  one_to_one : Bool
deriving DecidableEq

/-- A django model class as seen by the expansion: its lower-cased name, its
fields, and whether it is a subclass of `ArchiveModel`. -/
structure MModel where
  name : String
  archivable : Bool
  fields : List MField
deriving DecidableEq

/-- The app registry: the finite collection of model classes. -/
abbrev Schema := List MModel

/-- Resolve a model class by name. -/
def findModel (s : Schema) (n : String) : Option MModel :=
  s.find? (fun m => m.name == n)

/-- The `_get_f_key` helper inside `ArchiveNode.expand`:
`"{model}:{related or None}"` over lower-cased names. -/
def get_f_key (mname : String) (f : MField) : String :=
  mname ++ ":" ++ f.relatedModel.getD "None"

/-- The `issubclass(f.related_model, ArchiveModel)` test, through the
registry. -/
def isArchivableModel (s : Schema) : Option String → Bool
  | none => false
  | some rn =>
    match findModel s rn with
    | some m => m.archivable
    | none => false

/-- The field filter of `ArchiveNode.expand` (models.py lines 111-115), in
source order: the related model differs from the node's own model, the
(source, target) key has not been parsed, the field is one-to-many or
one-to-one, and the related model is an `ArchiveModel`. -/
def relFieldOk (s : Schema) (mname : String) (parsed : List String)
    (f : MField) : Bool :=
  (f.relatedModel != some mname)
    && !(parsed.contains (get_f_key mname f))
    && (f.one_to_many || f.one_to_one)
    && isArchivableModel s f.relatedModel

/-- Modelled from the spec: the field condition as claim C3 states it —
one-to-many or one-to-one, Archivable target, (source, target) pair not
already visited. The claim does not mention the code's extra requirement
that the target differ from the source model. -/
def specRelFieldOk (s : Schema) (mname : String) (parsed : List String)
    (f : MField) : Bool :=
  (f.one_to_many || f.one_to_one)
    && isArchivableModel s f.relatedModel
    && !(parsed.contains (get_f_key mname f))

/-- One `ArchiveNode` of the cascade tree: its model, the relation field name
linking it to its parent, and its children (the parent back-pointer of the
Python object is represented by the position in the tree). -/
inductive ANode : Type where
  | node (model : String) (relation_field : String) (children : List ANode)

/-- Model name of a node. -/
def ANode.model : ANode → String
  | .node m _ _ => m

/-- Relation field name of a node. -/
def ANode.relation_field : ANode → String
  | .node _ r _ => r

/-- Children of a node. -/
def ANode.children : ANode → List ANode
  | .node _ _ c => c

/-- The loop body of `ArchiveNode.expand` (models.py lines 117-133) over the
already-filtered field list. `g` is the recursive expansion of a child model
given the shared `parsed_rel_fields` list. For each field, the key is
appended to the list *before* the child expands (line 129), the child's
subtree is built, and the completed child node is appended; the mutated list
flows into the next sibling. -/
def expandStep (g : String → List String → Option (List ANode × List String))
    (mname : String) : List MField → List String →
    Option (List ANode × List String)
  | [], parsed => some ([], parsed)
  | f :: fs, parsed =>
    match g (f.relatedModel.getD "None") (parsed ++ [get_f_key mname f]) with
    | none => none
    | some (cc, parsed2) =>
      match expandStep g mname fs parsed2 with
      | none => none
      | some (rest, parsed3) =>
        some (ANode.node (f.relatedModel.getD "None") f.relName cc :: rest, parsed3)

/-- `ArchiveNode.expand(parsed_rel_fields)` (models.py lines 92-133), with a
fuel parameter making the recursion manifestly total; `expandFuel_isSome`
below shows enough fuel always exists. Returns the node's children and the
final `parsed_rel_fields` list. A model name absent from the registry cannot
occur in the Python code (models are classes); it expands to no children. -/
def expandFuel (s : Schema) : Nat → String → List String →
    Option (List ANode × List String)
  | 0, _, _ => none
  | fuel + 1, mname, parsed =>
    match findModel s mname with
    | none => some ([], parsed)
    | some m =>
      expandStep (fun mn p => expandFuel s fuel mn p) m.name
        (m.fields.filter (relFieldOk s m.name parsed)) parsed

/-- All candidate `_get_f_key` values over a registry: one per ordered pair
of model classes. -/
def allKeys (s : Schema) : List String :=
  s.flatMap (fun m1 => s.map (fun m2 => m1.name ++ ":" ++ m2.name))

/-- Fuel sufficient for any expansion over the registry `s`. -/
def fuelBound (s : Schema) : Nat :=
  (allKeys s).dedup.length + 1

/-- Top-level `node.expand()` from a root model with the initial empty
`parsed_rel_fields` list. -/
def expandTree (s : Schema) (mname : String) :
    Option (List ANode × List String) :=
  expandFuel s (fuelBound s) mname []

mutual

/-- The (sourceType, targetType) pair of a node and, recursively, of its
subtree, in the order the expansion visits them. -/
def treePairs (parent : String) : ANode → List (String × String)
  | .node m _ ch => (parent, m) :: pairsList m ch

/-- The visit pairs of a list of sibling subtrees. -/
def pairsList (parent : String) : List ANode → List (String × String)
  | [] => []
  | n :: ns => treePairs parent n ++ pairsList parent ns

end

/-- One entry of `opts.concrete_fields` as consumed by
`copy_model_instance` (utils/copy.py): field name, attribute name (the raw
id column for foreign keys), and whether the field is a
`ForeignKey`/`OneToOneField`. -/
structure CField where
  name : String
  attname : String
  isFK : Bool
deriving DecidableEq

/-- The `__dict__` key a concrete field is copied under: the `attname` (raw
identifier) for foreign keys, the field name otherwise. -/
def fieldKey (f : CField) : String :=
  if f.isFK then f.attname else f.name

/-- Association-list lookup over a Python `__dict__` (values are object
identities). -/
def dictLookup : List (String × Nat) → String → Option Nat
  | [], _ => none
  | (k, v) :: rest, key => if k = key then some v else dictLookup rest key

/-- The `name in self.__dict__` test. -/
def dictContains (d : List (String × Nat)) (key : String) : Bool :=
  (dictLookup d key).isSome

/-- Python `d[key] = v`: overwrite in place, or append a new entry. -/
def dictSet : List (String × Nat) → String → Nat → List (String × Nat)
  | [], key, v => [(key, v)]
  | (k, w) :: rest, key, v =>
    if k = key then (k, v) :: rest else (k, w) :: dictSet rest key v

/-- The copy loop of `copy_model_instance` (utils/copy.py lines 34-59): for
each concrete field, copy the value found in the source `__dict__` under
`attname` (foreign keys) or `name` (other fields); fields absent from the
source dict (deferred) are skipped. Each copied value is the same object
identity as in the source. -/
def copyFields : List CField → List (String × Nat) → List (String × Nat)
  | [], _ => []
  | f :: fs, d =>
    match dictLookup d (fieldKey f) with
    | some v => (fieldKey f, v) :: copyFields fs d
    | none => copyFields fs d

/-- The detached instance `copy_model_instance` returns: a fresh object
(`oid` is its new identity), with `_state.adding = False` and the copied
field dict; `can_be_modified_on_db` is `True` until `capture_history` clears
it. -/
structure Snapshot where
  oid : Nat
  dict : List (String × Nat)
  adding : Bool
  can_be_modified_on_db : Bool
deriving DecidableEq

/-- `copy_model_instance(instance)` given the fresh object identity to use:
shallow-copies the concrete fields and marks the copy as an existing
(non-adding) record. -/
def copy_model_instance (oid : Nat) (fields : List CField)
    (d : List (String × Nat)) : Snapshot :=
  { oid := oid, dict := copyFields fields d, adding := false
    can_be_modified_on_db := true }

/-- History lookup (`self.history[version]`); `none` is the `KeyError`
branch. -/
def histLookup : List (Nat × Snapshot) → Nat → Option Snapshot
  | [], _ => none
  | (k, v) :: rest, key => if k = key then some v else histLookup rest key

/-- An in-memory `StateModel` instance: its concrete fields (meta), the
`_state.adding` flag, its `__dict__` field values (object identities), the
history version counter and dict from `StateModel.__init__`, the
`cached_property` slot of `earliest_version`, and the next fresh object
identity (models Python allocation, so that distinct captures are
distinguishable objects). -/
structure StInst where
  fields : List CField
  adding : Bool
  dict : List (String × Nat)
  history_version : Nat
  history : List (Nat × Snapshot)
  cachedEarliest : Option Snapshot
  nextOid : Nat
deriving DecidableEq

/-- `StateModel.capture_history` (models.py lines 334-351): return the
snapshot already stored for the current version, or copy the instance, mark
the copy non-persistable, and store it under the current version. -/
def capture_history (s : StInst) : Snapshot × StInst :=
  match histLookup s.history s.history_version with
  | some obj => (obj, s)
  | none =>
    let obj :=
      { copy_model_instance s.nextOid s.fields s.dict with
          can_be_modified_on_db := false }
    (obj, { s with history := s.history ++ [(s.history_version, obj)]
                   nextOid := s.nextOid + 1 })

/-- `StateModel.__setattr__` (models.py lines 277-299): on an existing
(non-adding) instance, when the assigned name is a declared model field
(`self._meta.get_field(name)` succeeds) and the name is already in
`self.__dict__`, capture history first; then perform the assignment. -/
def StateModel.setAttr (s : StInst) (name : String) (v : Nat) : StInst :=
  let s1 :=
    if !s.adding && s.fields.any (fun f => f.name == name)
        && dictContains s.dict name
    then (capture_history s).2 else s
  { s1 with dict := dictSet s1.dict name v }

/-- `StateModel.earliest_version` (models.py lines 301-312), a
`cached_property`: on a cache miss, return `self.history[0]`, or on
`KeyError` whatever `capture_history()` returns; the result is memoized in
the instance dict. -/
def earliest_version (s : StInst) : Snapshot × StInst :=
  match s.cachedEarliest with
  | some v => (v, s)
  | none =>
    match histLookup s.history 0 with
    | some obj => (obj, { s with cachedEarliest := some obj })
    | none =>
      ((capture_history s).1,
        { (capture_history s).2 with cachedEarliest := some (capture_history s).1 })

/-- `StateModel.latest_version` (models.py lines 314-324): the last item of
the (insertion-ordered) history dict, or a fresh capture when the history is
empty. `original` is an alias for it. -/
def latest_version (s : StInst) : Snapshot × StInst :=
  match s.history.getLast? with
  | some kv => (kv.2, s)
  | none => capture_history s

/-- `StateModel.save` (models.py lines 353-362), successful path: the row is
persisted (`_state.adding` becomes false) and the history version counter is
incremented by one. -/
def StateModel.save (s : StInst) : StInst :=
  { s with adding := false, history_version := s.history_version + 1 }

/-- `CachedPropertyHandlerMixin.purge_cached_properties` (mixins.py lines
14-17): the loop iterates `self.__class__.__dict__.items()`, i.e. only the
attributes declared directly on the concrete model class, and pops the name
of each `cached_property` found there from the instance `__dict__`.
`ownClassCachedProps` is the list of `cached_property` names in the concrete
class's own `__dict__`; the only cached-property slot of the embedding is
`earliest_version` (its memo is `cachedEarliest`), which is popped exactly
when the concrete class itself declares a `cached_property` of that name.
In the repository `earliest_version` is declared on the abstract
`StateModel` (models.py line 301) and the mixin enters only at
`IntegratedModel`, so a concrete model inherits it and its name is absent
from the concrete class's own `__dict__`. -/
def purge_cached_properties (ownClassCachedProps : List String)
    (s : StInst) : StInst :=
  if ownClassCachedProps.contains "earliest_version" then
    { s with cachedEarliest := none }
  else s

/-- `CachedPropertyHandlerMixin.refresh_from_db` (mixins.py lines 10-12):
purge the concrete class's own cached properties, then reload the field
values from the backing store; the in-memory history and version are
untouched. -/
def refresh_from_db (ownClassCachedProps : List String) (s : StInst)
    (reloaded : List (String × Nat)) : StInst :=
  { purge_cached_properties ownClassCachedProps s with dict := reloaded }

/-- Observable side effects of `ArchiveModel.save`, in program order. -/
inductive Effect : Type where
  | cascade (archived : Bool)
  | persist
deriving DecidableEq

/-- The two exceptions `ArchiveModel.save` can raise (exceptions.py). -/
inductive SaveError : Type where
  | cannotModifyObjectWithArchivedParent
  | cannotModifyArchivedObject
deriving DecidableEq

/-- The inputs of the `ArchiveModel.save` guard logic: the `_state.adding`
flag, the instance's current `archived` and `archive_points` values, the
`archived` value of `self.original` (the snapshot captured before the
current mutations), and the `_must_be_unarchived_to_modify` class flag. -/
structure MState where
  adding : Bool
  archived : Bool
  archive_points : Option (List String)
  original_archived : Bool
  must_be_unarchived_to_modify : Bool
deriving DecidableEq

/-- `ArchiveModel.save(force, ...)` (models.py lines 384-417) as a trace of
effects: the effects performed in order, and the exception raised, if any.
A raised exception aborts the enclosing `transaction.atomic`, so an error
with an empty effect list leaves all persisted state unchanged. The
`if self.original` truthiness test is always true (a model instance). -/
def ArchiveModel.save (s : MState) (force : Bool) :
    List Effect × Option SaveError :=
  if s.adding then ([Effect.persist], none)
  else if s.archived != s.original_archived then
    if s.archived && !s.original_archived then
      ([Effect.cascade true, Effect.persist], none)
    else if !s.archived && s.original_archived then
      if apTruthy s.archive_points then
        ([], some SaveError.cannotModifyObjectWithArchivedParent)
      else ([Effect.cascade false, Effect.persist], none)
    else ([Effect.persist], none)
  else if !force && (s.must_be_unarchived_to_modify && s.archived) then
    ([], some SaveError.cannotModifyArchivedObject)
  else ([Effect.persist], none)

/-- Number of candidate keys the expansion has not visited yet: the measure
that shrinks every time `ArchiveNode.expand` appends an unvisited key. -/
def missingKeys (s : Schema) (parsed : List String) : Nat :=
  ((allKeys s).toFinset.filter (fun k => k ∉ parsed)).card

/-- A model with a one-to-one relation to itself (a
`OneToOneField('self')`). -/
def selfModel : MModel :=
  { name := "a", archivable := true
    fields := [{ relName := "twin", relatedModel := some "a"
                 one_to_many := false, one_to_one := true }] }

/-- A registry with the single archivable self-related model `a`: the code's
`f.related_model != self.model` test excludes the field from expansion. -/
def selfRefSchema : Schema := [selfModel]

/-- A registry where model `b` holds two distinct foreign keys to `a`
(say `from_a` and `to_a`), so `a`'s field list contains two reverse
one-to-many relations to `b`: two parallel edges with the same
(source, target) pair. -/
def parallelSchema : Schema :=
  [{ name := "a", archivable := true
     fields := [{ relName := "from_a", relatedModel := some "b"
                  one_to_many := true, one_to_one := false },
                { relName := "to_a", relatedModel := some "b"
                  one_to_many := true, one_to_one := false }] },
   { name := "b", archivable := true, fields := [] }]

/-- The root model of the diamond registry below. -/
def rootModel : MModel :=
  { name := "r", archivable := true
    fields := [{ relName := "r_of_b", relatedModel := some "b"
                 one_to_many := true, one_to_one := false },
               { relName := "r_of_c", relatedModel := some "c"
                 one_to_many := true, one_to_one := false }] }

/-- A diamond-shaped registry: root `r` cascades to `b` and `c`, each of
which cascades to the shared dependent `d`. -/
def diamondSchema : Schema :=
  [rootModel,
   { name := "b", archivable := true
     fields := [{ relName := "b_of_d", relatedModel := some "d"
                  one_to_many := true, one_to_one := false }] },
   { name := "c", archivable := true
     fields := [{ relName := "c_of_d", relatedModel := some "d"
                  one_to_many := true, one_to_one := false }] },
   { name := "d", archivable := true, fields := [] }]

/-- The tree the expansion builds from the diamond root `r`. -/
def diamondChildren : List ANode :=
  [ANode.node "b" "r_of_b" [ANode.node "d" "b_of_d" []],
   ANode.node "c" "r_of_c" [ANode.node "d" "c_of_d" []]]

/-- An existing instance with one declared field `title` that is *not*
loaded into `__dict__` (a deferred field): assigning to it captures no
history in the code. -/
def deferredInst : StInst :=
  { fields := [{ name := "title", attname := "title", isFK := false }]
    adding := false, dict := [], history_version := 0, history := []
    cachedEarliest := none, nextOid := 0 }

/-- An existing instance that was created and saved once without any field
mutation: its history version is 1 and its history dict is empty, so no
snapshot exists under version 0. -/
def savedFreshInst : StInst :=
  { fields := [{ name := "title", attname := "title", isFK := false }]
    adding := false, dict := [("title", 5)], history_version := 1
    history := [], cachedEarliest := none, nextOid := 0 }

/-- An existing instance with its one declared field loaded into
`__dict__`. -/
def loadedInst : StInst :=
  { fields := [{ name := "title", attname := "title", isFK := false }]
    adding := false, dict := [("title", 5)], history_version := 0
    history := [], cachedEarliest := none, nextOid := 0 }

/-- A concrete snapshot value. -/
def snapZ : Snapshot :=
  { oid := 0, dict := [], adding := false, can_be_modified_on_db := false }

/-- An existing instance that already holds a snapshot for its current
version (version 0). -/
def stWithSnap : StInst :=
  { fields := [], adding := false, dict := [], history_version := 0
    history := [(0, snapZ)], cachedEarliest := none, nextOid := 1 }

/-- Concrete field metadata for the copy witness: one foreign key and one
plain field. -/
def copyDemoFields : List CField :=
  [{ name := "author", attname := "author_id", isFK := true },
   { name := "title", attname := "title", isFK := false }]

/-- Concrete `__dict__` for the copy witness: the raw foreign-key id and a
loaded plain field. -/
def copyDemoDict : List (String × Nat) :=
  [("author_id", 3), ("title", 9)]

-- Helper lemmas (shared; no claim theorem is used by any other proof).

/-- A removed tag is no longer contained in the array. -/
theorem arrayContains_arrayRemove (ap : Option (List String)) (point : String) :
    arrayContains (arrayRemove ap point) point = false := by
  cases ap with
  | none => rfl
  | some l => simp [arrayRemove, arrayContains, List.mem_filter]

/-- An appended tag is contained in the array. -/
theorem arrayContains_arrayAppend (ap : Option (List String)) (point : String) :
    arrayContains (arrayAppend ap point) point = true := by
  cases ap with
  | none => simp [arrayAppend, arrayContains]
  | some l => simp [arrayAppend, arrayContains]

/-- Appending a tag adds one occurrence of it. -/
theorem apCount_arrayAppend (ap : Option (List String)) (point : String) :
    apCount (arrayAppend ap point) point = apCount ap point + 1 := by
  cases ap with
  | none => simp [arrayAppend, apCount]
  | some l => simp [arrayAppend, apCount]

/-- A tag the array does not contain occurs zero times in it. -/
theorem apCount_eq_zero (ap : Option (List String)) (point : String)
    (h : arrayContains ap point = false) : apCount ap point = 0 := by
  cases ap with
  | none => rfl
  | some l =>
    simp only [arrayContains] at h
    simp only [apCount, List.count_eq_zero]
    simpa using h

/-- The archive row transformer is idempotent. -/
theorem archiveRowUpdate_idem (point : String) (r : ArchiveRow) :
    archiveRowUpdate point (archiveRowUpdate point r) = archiveRowUpdate point r := by
  by_cases h : arrayContains r.archive_points point = true
  · simp [archiveRowUpdate, h]
  · simp only [Bool.not_eq_true] at h
    simp [archiveRowUpdate, h, arrayContains_arrayAppend]

/-- The archiving bulk update maps the archive row transformer. -/
theorem update_queryset_true (point : String) (qs : List ArchiveRow) :
    update_queryset true point qs = qs.map (archiveRowUpdate point) := by
  simp [update_queryset]

/-- The unarchiving bulk update maps the unarchive row transformer. -/
theorem update_queryset_false (point : String) (qs : List ArchiveRow) :
    update_queryset false point qs = qs.map (unarchiveRowUpdate point) := by
  simp [update_queryset]

/-- Pointwise facts about a mapped list lift to `List.Forall₂`. -/
theorem forall₂_map_self {α β : Type} (P : α → β → Prop) (g : α → β)
    (l : List α) (h : ∀ r ∈ l, P r (g r)) : List.Forall₂ P l (l.map g) :=
  List.forall₂_map_right_iff.2 (List.forall₂_same.2 h)

/-- C1: for the cascade bulk update with `archived=false` and tag `point`,
every matched row has `point` removed from `archive_points` (via
`array_remove`, so `point` no longer occurs), and `archived` is set to
`false` exactly when the pre-removal array contained `point` and had length
exactly 1; in every other case `archived` keeps its pre-update value. -/
theorem cascade_unarchive_row_semantics (point : String) (qs : List ArchiveRow) :
    List.Forall₂ (fun r r' =>
      r'.archive_points = arrayRemove r.archive_points point
      ∧ arrayContains r'.archive_points point = false
      ∧ ((arrayContains r.archive_points point = true
            ∧ arrayLen r.archive_points = some 1) → r'.archived = false)
      ∧ (¬ (arrayContains r.archive_points point = true
            ∧ arrayLen r.archive_points = some 1) → r'.archived = r.archived))
      qs (update_queryset false point qs) := by
  rw [update_queryset_false]
  refine forall₂_map_self _ _ qs (fun r _ => ?_)
  refine ⟨rfl, arrayContains_arrayRemove _ _, fun h => ?_, fun h => ?_⟩
  · simp [unarchiveRowUpdate, h.1, h.2]
  · simp only [unarchiveRowUpdate]
    rw [if_neg h]

/-- Witness for C1 at a concrete queryset. -/
theorem cascade_unarchive_row_semantics_witness :
    List.Forall₂ (fun r r' =>
      r'.archive_points = arrayRemove r.archive_points "a"
      ∧ arrayContains r'.archive_points "a" = false
      ∧ ((arrayContains r.archive_points "a" = true
            ∧ arrayLen r.archive_points = some 1) → r'.archived = false)
      ∧ (¬ (arrayContains r.archive_points "a" = true
            ∧ arrayLen r.archive_points = some 1) → r'.archived = r.archived))
      ([{ archived := true, archive_points := some ["a"] },
        { archived := true, archive_points := some ["a", "x"] }] : List ArchiveRow)
      (update_queryset false "a"
        [{ archived := true, archive_points := some ["a"] },
         { archived := true, archive_points := some ["a", "x"] }]) :=
  cascade_unarchive_row_semantics "a"
    [{ archived := true, archive_points := some ["a"] },
     { archived := true, archive_points := some ["a", "x"] }]

/-- C2: for the cascade bulk update with `archived=true` and tag `point`,
every matched row gets `archived=true`; `archive_points` is unchanged when
it already contains `point` and has `point` appended otherwise, so a row
whose array held `point` at most once still holds it at most once; and the
whole bulk update is idempotent (a second identical cascade changes no
row). -/
theorem cascade_archive_row_semantics :
    (∀ (point : String) (qs : List ArchiveRow),
      List.Forall₂ (fun r r' =>
        r'.archived = true
        ∧ (arrayContains r.archive_points point = true →
            r'.archive_points = r.archive_points)
        ∧ (arrayContains r.archive_points point = false →
            r'.archive_points = arrayAppend r.archive_points point)
        ∧ (apCount r.archive_points point ≤ 1 →
            apCount r'.archive_points point ≤ 1))
        qs (update_queryset true point qs))
    ∧ ∀ (point : String) (qs : List ArchiveRow),
        update_queryset true point (update_queryset true point qs)
          = update_queryset true point qs := by
  constructor
  · intro point qs
    rw [update_queryset_true]
    refine forall₂_map_self _ _ qs (fun r _ => ?_)
    refine ⟨rfl, fun h => by simp [archiveRowUpdate, h], fun h => ?_, fun h => ?_⟩
    · simp [archiveRowUpdate, h]
    · by_cases hc : arrayContains r.archive_points point = true
      · simpa [archiveRowUpdate, hc] using h
      · simp only [Bool.not_eq_true] at hc
        simp only [archiveRowUpdate, hc, Bool.false_eq_true, if_false]
        rw [apCount_arrayAppend, apCount_eq_zero r.archive_points point hc]
  · intro point qs
    rw [update_queryset_true, update_queryset_true, List.map_map]
    exact List.map_congr_left (fun r _ => archiveRowUpdate_idem point r)

/-- Witness for C2 at a concrete tag and queryset. -/
theorem cascade_archive_row_semantics_witness :
    List.Forall₂ (fun r r' =>
        r'.archived = true
        ∧ (arrayContains r.archive_points "a" = true →
            r'.archive_points = r.archive_points)
        ∧ (arrayContains r.archive_points "a" = false →
            r'.archive_points = arrayAppend r.archive_points "a")
        ∧ (apCount r.archive_points "a" ≤ 1 →
            apCount r'.archive_points "a" ≤ 1))
      ([{ archived := false, archive_points := none },
        { archived := true, archive_points := some ["a"] }] : List ArchiveRow)
      (update_queryset true "a"
        [{ archived := false, archive_points := none },
         { archived := true, archive_points := some ["a"] }])
    ∧ update_queryset true "a" (update_queryset true "a"
        [{ archived := false, archive_points := none }])
      = update_queryset true "a" [{ archived := false, archive_points := none }] :=
  ⟨cascade_archive_row_semantics.1 "a" _, cascade_archive_row_semantics.2 "a" _⟩

/-- C5: an existing instance whose `archived` flag changed true→false
relative to its captured original fails `save()` with
`CannotModifyObjectWithArchivedParent` whenever `archive_points` is
non-empty; the raise happens before `node.expand()`/`node.update()` and
before `super().save()`, so no cascade is issued and nothing is persisted
(the empty effect trace), and `transaction.atomic` leaves persisted state
unchanged. -/
theorem unarchive_blocked_by_archive_points (s : MState) (force : Bool)
    (hAdd : s.adding = false) (hOrig : s.original_archived = true)
    (hArch : s.archived = false) (hPts : apTruthy s.archive_points = true) :
    ArchiveModel.save s force
      = ([], some SaveError.cannotModifyObjectWithArchivedParent) := by
  simp [ArchiveModel.save, hAdd, hOrig, hArch, hPts]

/-- Witness for C5 at a concrete instance state. -/
theorem unarchive_blocked_by_archive_points_witness :
    ArchiveModel.save
      { adding := false, archived := false, archive_points := some ["parent"]
        original_archived := true, must_be_unarchived_to_modify := true } false
      = ([], some SaveError.cannotModifyObjectWithArchivedParent) :=
  unarchive_blocked_by_archive_points _ false rfl rfl rfl rfl

/-- C8: an existing instance whose `archived` flag is unchanged and true,
on a type with `_must_be_unarchived_to_modify`, fails `save(force=False)`
with `CannotModifyArchivedObject` (empty effect trace), while the identical
`save(force=True)` raises nothing and persists the row. -/
theorem archived_modify_guard (s : MState)
    (hAdd : s.adding = false) (hArch : s.archived = true)
    (hOrig : s.original_archived = true)
    (hMust : s.must_be_unarchived_to_modify = true) :
    ArchiveModel.save s false = ([], some SaveError.cannotModifyArchivedObject)
    ∧ ArchiveModel.save s true = ([Effect.persist], none) := by
  constructor
  · simp [ArchiveModel.save, hAdd, hArch, hOrig, hMust]
  · simp [ArchiveModel.save, hAdd, hArch, hOrig, hMust]

/-- Witness for C8 at a concrete instance state. -/
theorem archived_modify_guard_witness :
    ArchiveModel.save
      { adding := false, archived := true, archive_points := none
        original_archived := true, must_be_unarchived_to_modify := true } false
      = ([], some SaveError.cannotModifyArchivedObject)
    ∧ ArchiveModel.save
      { adding := false, archived := true, archive_points := none
        original_archived := true, must_be_unarchived_to_modify := true } true
      = ([Effect.persist], none) :=
  archived_modify_guard _ rfl rfl rfl rfl

/-- Setting a key makes it the key's looked-up value. -/
theorem dictLookup_dictSet_self (d : List (String × Nat)) (key : String) (v : Nat) :
    dictLookup (dictSet d key v) key = some v := by
  induction d with
  | nil => simp [dictSet, dictLookup]
  | cons kv rest ih =>
    by_cases h : kv.1 = key
    · simp [dictSet, dictLookup, h]
    · simp only [dictSet, dictLookup, if_neg h]
      exact ih

/-- Capturing history never touches the instance's own field dict, meta or
adding flag. -/
theorem capture_history_dict (s : StInst) :
    (capture_history s).2.dict = s.dict ∧ (capture_history s).2.fields = s.fields
    ∧ (capture_history s).2.adding = s.adding := by
  cases h : histLookup s.history s.history_version with
  | some o => simp [capture_history, h]
  | none => simp [capture_history, h]

/-- C7: `capture_history` is idempotent within a version (an existing
snapshot for the current version is returned and the history left alone);
a successful `save()` increments the version counter by exactly one; and the
first capture after a save stores a freshly allocated snapshot under the new
version. -/
theorem capture_history_version_discipline :
    (∀ (s : StInst) (o : Snapshot),
      histLookup s.history s.history_version = some o →
      capture_history s = (o, s))
    ∧ (∀ s : StInst, (StateModel.save s).history_version = s.history_version + 1)
    ∧ (∀ s : StInst, histLookup s.history (s.history_version + 1) = none →
        (capture_history (StateModel.save s)).2.history
          = s.history
            ++ [(s.history_version + 1, (capture_history (StateModel.save s)).1)]
        ∧ (capture_history (StateModel.save s)).1.oid = s.nextOid) := by
  refine ⟨fun s o h => ?_, fun s => rfl, fun s h => ?_⟩
  · simp [capture_history, h]
  · constructor
    · simp [capture_history, StateModel.save, h]
    · simp [capture_history, StateModel.save, h, copy_model_instance]

/-- Witness for C7 at a concrete instance. -/
theorem capture_history_version_discipline_witness :
    capture_history stWithSnap = (snapZ, stWithSnap)
    ∧ (StateModel.save stWithSnap).history_version = 1
    ∧ ((capture_history (StateModel.save stWithSnap)).2.history
        = stWithSnap.history
          ++ [(1, (capture_history (StateModel.save stWithSnap)).1)]
      ∧ (capture_history (StateModel.save stWithSnap)).1.oid = stWithSnap.nextOid) :=
  ⟨capture_history_version_discipline.1 stWithSnap snapZ rfl,
   capture_history_version_discipline.2.1 stWithSnap,
   capture_history_version_discipline.2.2 stWithSnap rfl⟩

/-- C6 (amended): on an existing instance, assigning to a declared model
field whose name is present in the instance `__dict__` captures history
first — storing, when the current version has no snapshot yet, a copy of the
pre-mutation field values under the current version — and then applies the
new value; when the current version is already captured the history is left
unchanged (one snapshot per version). Assignments on adding instances, to
names that are not declared fields, or to declared fields missing from
`__dict__` capture nothing. -/
theorem setattr_capture_semantics :
    (∀ (s : StInst) (name : String) (v : Nat),
      s.adding = false →
      s.fields.any (fun f => f.name == name) = true →
      dictContains s.dict name = true →
      (histLookup s.history s.history_version = none →
        (StateModel.setAttr s name v).history
          = s.history
            ++ [(s.history_version,
                 { copy_model_instance s.nextOid s.fields s.dict with
                     can_be_modified_on_db := false })])
      ∧ (∀ o, histLookup s.history s.history_version = some o →
          (StateModel.setAttr s name v).history = s.history)
      ∧ dictLookup (StateModel.setAttr s name v).dict name = some v)
    ∧ (∀ (s : StInst) (name : String) (v : Nat),
        s.adding = true ∨ s.fields.any (fun f => f.name == name) = false
          ∨ dictContains s.dict name = false →
        (StateModel.setAttr s name v).history = s.history) := by
  constructor
  · intro s name v hAdd hField hDict
    refine ⟨fun hNone => ?_, fun o hSome => ?_, ?_⟩
    · simp [StateModel.setAttr, hAdd, hField, hDict, capture_history, hNone]
    · simp [StateModel.setAttr, hAdd, hField, hDict, capture_history, hSome]
    · simp only [StateModel.setAttr, hAdd, hField, hDict, Bool.not_false,
        Bool.and_self, if_pos]
      exact dictLookup_dictSet_self _ name v
  · intro s name v h
    have hcond : (!s.adding && s.fields.any (fun f => f.name == name)
        && dictContains s.dict name) = false := by
      rcases h with h | h | h <;> simp [h]
    simp [StateModel.setAttr, hcond]

/-- Witness for C6 at a concrete loaded instance and a concrete adding
instance. -/
theorem setattr_capture_semantics_witness :
    ((StateModel.setAttr loadedInst "title" 7).history
      = loadedInst.history
        ++ [(loadedInst.history_version,
             { copy_model_instance loadedInst.nextOid loadedInst.fields
                 loadedInst.dict with can_be_modified_on_db := false })])
    ∧ dictLookup (StateModel.setAttr loadedInst "title" 7).dict "title" = some 7
    ∧ (StateModel.setAttr { loadedInst with adding := true } "title" 7).history
        = ({ loadedInst with adding := true } : StInst).history :=
  ⟨(setattr_capture_semantics.1 loadedInst "title" 7 rfl rfl rfl).1 rfl,
   (setattr_capture_semantics.1 loadedInst "title" 7 rfl rfl rfl).2.2,
   setattr_capture_semantics.2 { loadedInst with adding := true } "title" 7
     (Or.inl rfl)⟩

/-- C6 counterexample: `deferredInst` is an existing instance and `title` is
one of its declared model fields, yet assigning to it stores no history
snapshot, because the name is absent from the instance `__dict__` (a
deferred/unloaded field) — contradicting the claim that any assignment to a
declared field on an existing instance triggers a capture. -/
theorem setattr_deferred_field_no_capture :
    deferredInst.adding = false
    ∧ deferredInst.fields.any (fun f => f.name == "title") = true
    ∧ (StateModel.setAttr deferredInst "title" 7).history = []
    ∧ histLookup (StateModel.setAttr deferredInst "title" 7).history
        deferredInst.history_version = none := by
  refine ⟨rfl, rfl, rfl, rfl⟩

/-- C9 (amended): the `earliest_version` accessor returns the snapshot
stored at version 0 when one exists, and otherwise returns whatever
`capture_history` produces — a snapshot stored under the *current* version;
either way the result is memoized, so a second access with no intervening
reload returns the identical snapshot and does not change the instance. A
full reload purges only the cached properties declared in the concrete model
class's own dict while reloading the field values; `earliest_version` is
declared on the abstract `StateModel` and inherited, so whenever the
concrete class declares no cached property of that name the memoized value
survives the reload, and the next access still returns the memoized
snapshot rather than recomputing from the reloaded state. -/
theorem earliest_version_semantics :
    (∀ (s : StInst) (o : Snapshot), s.cachedEarliest = none →
      histLookup s.history 0 = some o →
      earliest_version s = (o, { s with cachedEarliest := some o }))
    ∧ (∀ s : StInst, s.cachedEarliest = none → histLookup s.history 0 = none →
        earliest_version s = ((capture_history s).1,
          { (capture_history s).2 with
              cachedEarliest := some (capture_history s).1 }))
    ∧ (∀ s : StInst, earliest_version ((earliest_version s).2)
        = ((earliest_version s).1, (earliest_version s).2))
    ∧ (∀ (ownProps : List String) (s : StInst) (reloaded : List (String × Nat)),
        ownProps.contains "earliest_version" = false →
        (refresh_from_db ownProps s reloaded).cachedEarliest = s.cachedEarliest
        ∧ (refresh_from_db ownProps s reloaded).dict = reloaded
        ∧ (refresh_from_db ownProps s reloaded).history = s.history)
    ∧ (∀ (ownProps : List String) (s : StInst) (reloaded : List (String × Nat))
        (v : Snapshot), ownProps.contains "earliest_version" = false →
        s.cachedEarliest = some v →
        earliest_version (refresh_from_db ownProps s reloaded)
          = (v, refresh_from_db ownProps s reloaded)) := by
  refine ⟨fun s o hc h0 => ?_, fun s hc h0 => ?_, fun s => ?_,
    fun ownProps s reloaded hown => ?_, fun ownProps s reloaded v hown hv => ?_⟩
  · simp [earliest_version, hc, h0]
  · simp [earliest_version, hc, h0]
  · cases hc : s.cachedEarliest with
    | some v => simp [earliest_version, hc]
    | none =>
      cases h0 : histLookup s.history 0 with
      | some obj => simp [earliest_version, hc, h0]
      | none => simp [earliest_version, hc, h0]
  · have hmem : "earliest_version" ∉ ownProps := by simpa using hown
    exact ⟨by simp [refresh_from_db, purge_cached_properties, hmem],
      rfl, by simp [refresh_from_db, purge_cached_properties, hmem]⟩
  · have hmem : "earliest_version" ∉ ownProps := by simpa using hown
    simp [earliest_version, refresh_from_db, purge_cached_properties, hmem, hv]

/-- Witness for C9 at concrete instances (with the empty own-class
cached-property list of a concrete model that declares none itself). -/
theorem earliest_version_semantics_witness :
    earliest_version stWithSnap
      = (snapZ, { stWithSnap with cachedEarliest := some snapZ })
    ∧ earliest_version ((earliest_version savedFreshInst).2)
      = ((earliest_version savedFreshInst).1, (earliest_version savedFreshInst).2)
    ∧ (refresh_from_db [] { stWithSnap with cachedEarliest := some snapZ }
        [("x", 1)]).cachedEarliest
      = ({ stWithSnap with cachedEarliest := some snapZ } : StInst).cachedEarliest
    ∧ earliest_version (refresh_from_db []
        { stWithSnap with cachedEarliest := some snapZ } [("x", 1)])
      = (snapZ, refresh_from_db []
          { stWithSnap with cachedEarliest := some snapZ } [("x", 1)]) :=
  ⟨earliest_version_semantics.1 stWithSnap snapZ rfl rfl,
   earliest_version_semantics.2.2.1 savedFreshInst,
   (earliest_version_semantics.2.2.2.1 []
     { stWithSnap with cachedEarliest := some snapZ } [("x", 1)] rfl).1,
   earliest_version_semantics.2.2.2.2 []
     { stWithSnap with cachedEarliest := some snapZ } [("x", 1)] snapZ rfl rfl⟩

/-- C9 counterexample: on `savedFreshInst` (created, saved once, never
mutated: history version 1, empty history, empty memo) the first
`earliest_version` access stores the snapshot it returns under version 1 and
leaves version 0 vacant — contradicting the claim that the accessor returns
the snapshot stored at version 0, capturing *it* on first access if absent.
Moreover a full reload (`refresh_from_db` with the empty own-class
cached-property list of a concrete model, since `earliest_version` lives on
the abstract `StateModel` and the purge loop only sees the concrete class's
own `__dict__`) leaves the memo in place, and the next access returns the
memoized snapshot unchanged — contradicting the claim that a reload
discards the memoized value so the next access recomputes it from the
reloaded state. -/
theorem earliest_version_not_version_zero :
    savedFreshInst.cachedEarliest = none
    ∧ histLookup savedFreshInst.history 0 = none
    ∧ histLookup (earliest_version savedFreshInst).2.history 0 = none
    ∧ histLookup (earliest_version savedFreshInst).2.history 1
        = some (earliest_version savedFreshInst).1
    ∧ (refresh_from_db [] (earliest_version savedFreshInst).2
        [("title", 9)]).cachedEarliest = some (earliest_version savedFreshInst).1
    ∧ earliest_version (refresh_from_db [] (earliest_version savedFreshInst).2
        [("title", 9)])
      = ((earliest_version savedFreshInst).1,
         refresh_from_db [] (earliest_version savedFreshInst).2 [("title", 9)]) := by
  refine ⟨rfl, rfl, rfl, rfl, rfl, rfl⟩

/-- A key outside the copied field keys is absent from the copy. -/
theorem dictLookup_copyFields_not_mem (fs : List CField)
    (d : List (String × Nat)) (k : String) (h : k ∉ fs.map fieldKey) :
    dictLookup (copyFields fs d) k = none := by
  induction fs with
  | nil => rfl
  | cons f fs ih =>
    simp only [List.map_cons, List.mem_cons, not_or] at h
    simp only [copyFields]
    cases hd : dictLookup d (fieldKey f) with
    | none => exact ih h.2
    | some v =>
      simp only [dictLookup]
      rw [if_neg (fun he => h.1 he.symm)]
      exact ih h.2

/-- Looking up a field's key in the copied dict gives exactly the source
dict's value for that key. -/
theorem dictLookup_copyFields (fields : List CField) (d : List (String × Nat))
    (f : CField) (hnd : (fields.map fieldKey).Nodup) (hf : f ∈ fields) :
    dictLookup (copyFields fields d) (fieldKey f) = dictLookup d (fieldKey f) := by
  induction fields with
  | nil => cases hf
  | cons g fs ih =>
    simp only [List.map_cons, List.nodup_cons] at hnd
    rcases List.mem_cons.1 hf with hfg | hfs
    · subst hfg
      simp only [copyFields]
      cases hd : dictLookup d (fieldKey f) with
      | none => exact dictLookup_copyFields_not_mem fs d _ hnd.1
      | some v => simp [dictLookup]
    · have hne : fieldKey g ≠ fieldKey f := by
        intro he
        exact hnd.1 (he ▸ List.mem_map_of_mem fieldKey hfs)
      simp only [copyFields]
      cases hd : dictLookup d (fieldKey g) with
      | none => exact ih hnd.2 hfs
      | some v =>
        simp only [dictLookup, if_neg hne]
        exact ih hnd.2 hfs

/-- C10: the copy produced by `copy_model_instance` is shallow — it is
marked as an existing (non-adding) record, its dict is exactly the
field-by-field copy of the source dict, every copied field value is the very
same object (identical object identity) as the source's value at copy time,
and a foreign key is copied under its raw identifier attribute (`attname`)
only. -/
theorem copy_model_instance_shallow :
    (∀ (oid : Nat) (fields : List CField) (d : List (String × Nat)),
      (copy_model_instance oid fields d).adding = false
      ∧ (copy_model_instance oid fields d).dict = copyFields fields d)
    ∧ (∀ (fields : List CField) (d : List (String × Nat)) (f : CField),
        (fields.map fieldKey).Nodup → f ∈ fields →
        dictLookup (copyFields fields d) (fieldKey f) = dictLookup d (fieldKey f))
    ∧ (∀ f : CField, f.isFK = true → fieldKey f = f.attname) :=
  ⟨fun _ _ _ => ⟨rfl, rfl⟩,
   fun fields d f hnd hf => dictLookup_copyFields fields d f hnd hf,
   fun f h => by simp [fieldKey, h]⟩

/-- Witness for C10 at a concrete field list and source dict. -/
theorem copy_model_instance_shallow_witness :
    (copy_model_instance 5 copyDemoFields copyDemoDict).adding = false
    ∧ dictLookup (copyFields copyDemoFields copyDemoDict)
        (fieldKey { name := "author", attname := "author_id", isFK := true })
      = dictLookup copyDemoDict
        (fieldKey { name := "author", attname := "author_id", isFK := true })
    ∧ fieldKey { name := "author", attname := "author_id", isFK := true }
      = "author_id" :=
  ⟨(copy_model_instance_shallow.1 5 copyDemoFields copyDemoDict).1,
   copy_model_instance_shallow.2.1 copyDemoFields copyDemoDict _
     (by decide) (by decide),
   copy_model_instance_shallow.2.2 _ rfl⟩

-- Expansion lemmas (ArchiveNode.expand).

/-- Unfolding: expansion with zero fuel. -/
theorem expandFuel_zero (s : Schema) (mn : String) (parsed : List String) :
    expandFuel s 0 mn parsed = none := rfl

/-- Unfolding: expansion of an unknown model name. -/
theorem expandFuel_succ_none (s : Schema) (fuel : Nat) (mn : String)
    (parsed : List String) (h : findModel s mn = none) :
    expandFuel s (fuel + 1) mn parsed = some ([], parsed) := by
  simp [expandFuel, h]

/-- Unfolding: expansion of a known model runs the sibling loop over the
filtered field list. -/
theorem expandFuel_succ_some (s : Schema) (fuel : Nat) (mn : String)
    (parsed : List String) (m : MModel) (h : findModel s mn = some m) :
    expandFuel s (fuel + 1) mn parsed
      = expandStep (fun mn2 p => expandFuel s fuel mn2 p) m.name
          (m.fields.filter (relFieldOk s m.name parsed)) parsed := by
  simp [expandFuel, h]

/-- A successful `find?` by name returns a member with that name. -/
theorem findModel_mem (s : Schema) (n : String) (m : MModel)
    (h : findModel s n = some m) : m ∈ s ∧ m.name = n :=
  ⟨List.mem_of_find?_eq_some h, by simpa using List.find?_some h⟩

/-- Unpacking the field filter: a passing field's key is unvisited, and its
related model resolves to an archivable registry entry. -/
theorem relFieldOk_unpack (s : Schema) (mname : String) (parsed : List String)
    (f : MField) (h : relFieldOk s mname parsed f = true) :
    get_f_key mname f ∉ parsed
    ∧ ∃ rn m2, f.relatedModel = some rn ∧ findModel s rn = some m2
        ∧ m2.archivable = true := by
  simp only [relFieldOk, Bool.and_eq_true] at h
  obtain ⟨⟨⟨-, hnp⟩, -⟩, harch⟩ := h
  constructor
  · simpa using hnp
  · cases hrel : f.relatedModel with
    | none => rw [hrel] at harch; simp [isArchivableModel] at harch
    | some rn =>
      rw [hrel] at harch
      simp only [isArchivableModel] at harch
      cases hfind : findModel s rn with
      | none => rw [hfind] at harch; cases harch
      | some m2 =>
        rw [hfind] at harch
        exact ⟨rn, m2, rfl, hfind, harch⟩

/-- The key of a field passing the filter is a registry key and is not yet
visited. -/
theorem filter_field_key (s : Schema) (m : MModel) (parsed : List String)
    (hm : m ∈ s) (f : MField)
    (hf : f ∈ m.fields.filter (relFieldOk s m.name parsed)) :
    get_f_key m.name f ∈ allKeys s ∧ get_f_key m.name f ∉ parsed := by
  obtain ⟨hmem, hok⟩ := List.mem_filter.1 hf
  obtain ⟨hnp, rn, m2, hrn, hfind, -⟩ := relFieldOk_unpack s m.name parsed f hok
  refine ⟨?_, hnp⟩
  obtain ⟨hm2, hname⟩ := findModel_mem s rn m2 hfind
  rw [allKeys, List.mem_flatMap]
  refine ⟨m, hm, ?_⟩
  rw [List.mem_map]
  exact ⟨m2, hm2, by rw [hname]; simp [get_f_key, hrn]⟩

/-- The sibling loop only ever appends to `parsed_rel_fields`. -/
theorem expandStep_extends
    (g : String → List String → Option (List ANode × List String))
    (mname : String)
    (hg : ∀ mn p ch2 p2, g mn p = some (ch2, p2) → ∃ r, p2 = p ++ r) :
    ∀ (fs : List MField) (parsed : List String) (ch : List ANode)
      (p' : List String),
    expandStep g mname fs parsed = some (ch, p') → ∃ r, p' = parsed ++ r := by
  intro fs
  induction fs with
  | nil =>
    intro parsed ch p' h
    simp only [expandStep, Option.some.injEq, Prod.mk.injEq] at h
    exact ⟨[], by simp [← h.2]⟩
  | cons f fs ih =>
    intro parsed ch p' h
    simp only [expandStep] at h
    split at h
    · cases h
    next cc parsed2 hgr =>
      split at h
      · cases h
      next rest parsed3 hstep =>
        simp only [Option.some.injEq, Prod.mk.injEq] at h
        obtain ⟨r1, hr1⟩ := hg _ _ _ _ hgr
        obtain ⟨r2, hr2⟩ := ih parsed2 rest parsed3 hstep
        refine ⟨[get_f_key mname f] ++ r1 ++ r2, ?_⟩
        rw [← h.2, hr2, hr1]
        simp [List.append_assoc]

/-- Expansion only ever appends to `parsed_rel_fields`. -/
theorem expandFuel_extends (s : Schema) :
    ∀ (fuel : Nat) (mn : String) (parsed : List String) (ch : List ANode)
      (p' : List String),
    expandFuel s fuel mn parsed = some (ch, p') → ∃ r, p' = parsed ++ r := by
  intro fuel
  induction fuel with
  | zero => intro mn parsed ch p' h; cases h
  | succ fuel ih =>
    intro mn parsed ch p' h
    cases hm : findModel s mn with
    | none =>
      rw [expandFuel_succ_none s fuel mn parsed hm] at h
      simp only [Option.some.injEq, Prod.mk.injEq] at h
      exact ⟨[], by simp [← h.2]⟩
    | some m =>
      rw [expandFuel_succ_some s fuel mn parsed m hm] at h
      exact expandStep_extends _ m.name (fun mn2 p ch2 p2 hg => ih mn2 p ch2 p2 hg)
        _ parsed ch p' h

/-- The missing-key measure never grows as `parsed_rel_fields` grows. -/
theorem missingKeys_mono (s : Schema) (parsed r : List String) :
    missingKeys s (parsed ++ r) ≤ missingKeys s parsed := by
  apply Finset.card_le_card
  intro k hk
  simp only [Finset.mem_filter, List.mem_append] at *
  exact ⟨hk.1, fun hm => hk.2 (Or.inl hm)⟩

/-- Appending an unvisited registry key strictly shrinks the missing-key
measure. -/
theorem missingKeys_append_lt (s : Schema) (parsed : List String) (key : String)
    (hk : key ∈ allKeys s) (hnp : key ∉ parsed) :
    missingKeys s (parsed ++ [key]) < missingKeys s parsed := by
  apply Finset.card_lt_card
  rw [Finset.ssubset_iff_of_subset]
  · refine ⟨key, ?_, ?_⟩
    · simp only [Finset.mem_filter, List.mem_toFinset]
      exact ⟨hk, hnp⟩
    · simp
  · intro k hk2
    simp only [Finset.mem_filter, List.mem_append] at *
    exact ⟨hk2.1, fun hm => hk2.2 (Or.inl hm)⟩

/-- The sibling loop completes when the recursive expansion completes on
every strictly-smaller measure: the fields passed in were filtered against
`parsed₀`, and the running `parsed` list is `parsed₀` itself or already
strictly smaller in measure. -/
theorem expandStep_isSome (s : Schema)
    (g : String → List String → Option (List ANode × List String))
    (fuel : Nat) (mname : String)
    (hgSome : ∀ mn p, missingKeys s p < fuel → (g mn p).isSome)
    (hgExt : ∀ mn p ch p', g mn p = some (ch, p') → ∃ r, p' = p ++ r) :
    ∀ (fs : List MField) (parsed parsed₀ : List String),
    (∀ f ∈ fs, get_f_key mname f ∈ allKeys s ∧ get_f_key mname f ∉ parsed₀) →
    (parsed = parsed₀ ∨ missingKeys s parsed < missingKeys s parsed₀) →
    missingKeys s parsed₀ ≤ fuel →
    (expandStep g mname fs parsed).isSome := by
  intro fs
  induction fs with
  | nil => intro parsed parsed₀ _ _ _; simp [expandStep]
  | cons f fs ih =>
    intro parsed parsed₀ hf hp hb
    have hkey := hf f (List.mem_cons_self f fs)
    have hlt2 : missingKeys s (parsed ++ [get_f_key mname f])
        < missingKeys s parsed₀ := by
      rcases hp with rfl | hlt
      · exact missingKeys_append_lt s parsed _ hkey.1 hkey.2
      · exact lt_of_le_of_lt (missingKeys_mono s parsed [get_f_key mname f]) hlt
    have hg := hgSome (f.relatedModel.getD "None")
      (parsed ++ [get_f_key mname f]) (lt_of_lt_of_le hlt2 hb)
    cases hgr : g (f.relatedModel.getD "None") (parsed ++ [get_f_key mname f]) with
    | none => rw [hgr] at hg; cases hg
    | some res =>
      obtain ⟨cc, parsed2⟩ := res
      obtain ⟨r, hr⟩ := hgExt _ _ _ _ hgr
      have h3 : missingKeys s parsed2 < missingKeys s parsed₀ := by
        rw [hr]
        exact lt_of_le_of_lt
          (missingKeys_mono s (parsed ++ [get_f_key mname f]) r) hlt2
      have htail := ih parsed2 parsed₀
        (fun f' hf' => hf f' (List.mem_cons_of_mem f hf')) (Or.inr h3) hb
      cases hstep : expandStep g mname fs parsed2 with
      | none => rw [hstep] at htail; cases htail
      | some res2 =>
        obtain ⟨rest, parsed3⟩ := res2
        simp [expandStep, hgr, hstep]

/-- Expansion completes whenever the fuel exceeds the missing-key
measure. -/
theorem expandFuel_isSome (s : Schema) :
    ∀ (fuel : Nat) (mn : String) (parsed : List String),
    missingKeys s parsed < fuel → (expandFuel s fuel mn parsed).isSome := by
  intro fuel
  induction fuel with
  | zero => intro mn parsed h; cases h
  | succ fuel ih =>
    intro mn parsed h
    cases hm : findModel s mn with
    | none => rw [expandFuel_succ_none s fuel mn parsed hm]; rfl
    | some m =>
      rw [expandFuel_succ_some s fuel mn parsed m hm]
      refine expandStep_isSome s _ fuel m.name
        (fun mn2 p hp => ih mn2 p hp)
        (fun mn2 p ch p' hg => expandFuel_extends s fuel mn2 p ch p' hg)
        _ parsed parsed ?_ (Or.inl rfl) (Nat.le_of_lt_succ h)
      intro f hf
      exact filter_field_key s m parsed (findModel_mem s mn m hm).1 f hf

/-- The missing-key measure of an empty visited list is below the fuel
bound. -/
theorem missingKeys_nil_lt_fuelBound (s : Schema) :
    missingKeys s [] < fuelBound s := by
  have h1 : missingKeys s [] ≤ (allKeys s).toFinset.card :=
    Finset.card_filter_le _ _
  have h2 : (allKeys s).toFinset.card = (allKeys s).dedup.length :=
    List.card_toFinset _
  have h3 : fuelBound s = (allKeys s).dedup.length + 1 := rfl
  omega

/-- One child node is created per filtered field, carrying the field's
related model and inverse relation name, in field order. -/
theorem expandStep_forall₂
    (g : String → List String → Option (List ANode × List String))
    (mname : String) :
    ∀ (fs : List MField) (parsed : List String) (ch : List ANode)
      (p' : List String),
    expandStep g mname fs parsed = some (ch, p') →
    List.Forall₂ (fun (c : ANode) (f : MField) =>
      c.model = f.relatedModel.getD "None" ∧ c.relation_field = f.relName)
      ch fs := by
  intro fs
  induction fs with
  | nil =>
    intro parsed ch p' h
    simp only [expandStep, Option.some.injEq, Prod.mk.injEq] at h
    rw [← h.1]
    exact List.Forall₂.nil
  | cons f fs ih =>
    intro parsed ch p' h
    simp only [expandStep] at h
    split at h
    · cases h
    next cc parsed2 hgr =>
      split at h
      · cases h
      next rest parsed3 hstep =>
        simp only [Option.some.injEq, Prod.mk.injEq] at h
        rw [← h.1]
        exact List.Forall₂.cons ⟨rfl, rfl⟩ (ih parsed2 rest parsed3 hstep)

/-- A member of the left list of a `Forall₂` has a related member on the
right. -/
theorem forall₂_mem_left {α β : Type} {R : α → β → Prop} :
    ∀ {l1 : List α} {l2 : List β}, List.Forall₂ R l1 l2 →
    ∀ a ∈ l1, ∃ b ∈ l2, R a b := by
  intro l1 l2 h
  induction h with
  | nil => intro a ha; cases ha
  | @cons x y xs ys hxy _ ih =>
    intro a ha
    rcases List.mem_cons.1 ha with rfl | ha2
    · exact ⟨y, List.mem_cons_self y ys, hxy⟩
    · obtain ⟨b, hb, hrb⟩ := ih a ha2
      exact ⟨b, List.mem_cons_of_mem y hb, hrb⟩

/-- Every immediate child created by an expansion step has a
(sourceType, targetType) key that was unvisited when the node computed its
field list. -/
theorem expandFuel_children_unvisited (s : Schema) (fuel : Nat) (mn : String)
    (parsed : List String) (ch : List ANode) (p' : List String)
    (h : expandFuel s fuel mn parsed = some (ch, p')) :
    ∀ c ∈ ch, (mn ++ ":" ++ c.model) ∉ parsed := by
  cases fuel with
  | zero => cases h
  | succ fuel =>
    cases hm : findModel s mn with
    | none =>
      rw [expandFuel_succ_none s fuel mn parsed hm] at h
      simp only [Option.some.injEq, Prod.mk.injEq] at h
      rw [← h.1]
      intro c hc
      cases hc
    | some m =>
      rw [expandFuel_succ_some s fuel mn parsed m hm] at h
      intro c hc
      obtain ⟨f, hfmem, hcf⟩ :=
        forall₂_mem_left (expandStep_forall₂ _ m.name _ parsed ch p' h) c hc
      obtain ⟨hmem, hok⟩ := List.mem_filter.1 hfmem
      obtain ⟨hnp, -⟩ := relFieldOk_unpack s m.name parsed f hok
      have hname := (findModel_mem s mn m hm).2
      have : mn ++ ":" ++ c.model = get_f_key m.name f := by
        rw [hcf.1, get_f_key, hname]
      rw [this]
      exact hnp

/-- C3 (amended): whenever a reached node (a model resolved in the registry)
is expanded, its children correspond one-to-one, in field order, to exactly
the relationship fields passing the code's filter — one-to-many or
one-to-one, archivable target, unvisited (source, target) pair, *and* target
type different from the node's own type — each child linking the field's
target model through the inverse relationship field name. -/
theorem expand_children_match_filtered_fields (s : Schema) (fuel : Nat)
    (mn : String) (parsed : List String) (m : MModel) (ch : List ANode)
    (p' : List String) (hm : findModel s mn = some m)
    (h : expandFuel s (fuel + 1) mn parsed = some (ch, p')) :
    List.Forall₂ (fun (c : ANode) (f : MField) =>
      c.model = f.relatedModel.getD "None" ∧ c.relation_field = f.relName)
      ch (m.fields.filter (relFieldOk s mn parsed)) := by
  have hname := (findModel_mem s mn m hm).2
  rw [expandFuel_succ_some s fuel mn parsed m hm] at h
  rw [← hname]
  exact expandStep_forall₂ _ m.name _ parsed ch p' h

/-- Witness for C3 at the diamond registry root. -/
theorem expand_children_match_filtered_fields_witness :
    List.Forall₂ (fun (c : ANode) (f : MField) =>
      c.model = f.relatedModel.getD "None" ∧ c.relation_field = f.relName)
      diamondChildren
      (rootModel.fields.filter (relFieldOk diamondSchema "r" [])) :=
  expand_children_match_filtered_fields diamondSchema 16 "r" [] rootModel
    diamondChildren ["r:b", "b:d", "r:c", "c:d"] rfl rfl

/-- C3 counterexample: in `selfRefSchema` the root model `a` has a field
that satisfies all three conditions stated by the claim (one-to-one,
archivable target, unvisited pair — `specRelFieldOk`), yet the expansion
creates no child node for it, because the code additionally skips fields
whose target equals the node's own model. -/
theorem expand_self_relation_no_child :
    findModel selfRefSchema "a" = some selfModel
    ∧ (selfModel.fields.filter (specRelFieldOk selfRefSchema "a" [])).length = 1
    ∧ (expandTree selfRefSchema "a").map (fun res => res.1.length) = some 0 :=
  ⟨rfl, rfl, rfl⟩

/-- C4 (amended): expansion over any finite registry terminates (with the
computed fuel bound); the shared visited list only ever grows, every
explored pair's key being appended before recursion; no node explores a
relationship whose (sourceType, targetType) key was already visited when the
node computed its field list — though a single node's already-computed field
list may explore one pair once per matching field, so a pair is not in
general visited at most once — and in the diamond-shaped registry the four
edges, including the two distinct-source edges into the shared type `d`, are
each explored exactly once. -/
theorem expand_termination_and_visit_discipline :
    (∀ (s : Schema) (mn : String), (expandTree s mn).isSome)
    ∧ (∀ (s : Schema) (fuel : Nat) (mn : String) (parsed : List String)
        (ch : List ANode) (p' : List String),
        expandFuel s fuel mn parsed = some (ch, p') → ∃ r, p' = parsed ++ r)
    ∧ (∀ (s : Schema) (fuel : Nat) (mn : String) (parsed : List String)
        (ch : List ANode) (p' : List String),
        expandFuel s fuel mn parsed = some (ch, p') →
        ∀ c ∈ ch, (mn ++ ":" ++ c.model) ∉ parsed)
    ∧ (expandTree diamondSchema "r").map (fun res => pairsList "r" res.1)
        = some [("r", "b"), ("b", "d"), ("r", "c"), ("c", "d")]
    ∧ ([("r", "b"), ("b", "d"), ("r", "c"), ("c", "d")] :
        List (String × String)).Nodup :=
  ⟨fun s mn => expandFuel_isSome s _ mn [] (missingKeys_nil_lt_fuelBound s),
   fun s fuel mn parsed ch p' h => expandFuel_extends s fuel mn parsed ch p' h,
   fun s fuel mn parsed ch p' h =>
     expandFuel_children_unvisited s fuel mn parsed ch p' h,
   rfl, by decide⟩

/-- Witness for C4: termination at the diamond registry, and the
grows/unvisited conjuncts discharged at the diamond root expansion. -/
theorem expand_termination_and_visit_discipline_witness :
    (expandTree diamondSchema "r").isSome = true
    ∧ (∃ r, ["r:b", "b:d", "r:c", "c:d"] = ([] : List String) ++ r)
    ∧ (∀ c ∈ diamondChildren, ("r" ++ ":" ++ c.model) ∉ ([] : List String)) :=
  ⟨expand_termination_and_visit_discipline.1 diamondSchema "r",
   expand_termination_and_visit_discipline.2.1 diamondSchema
     (fuelBound diamondSchema) "r" [] diamondChildren
     ["r:b", "b:d", "r:c", "c:d"] rfl,
   expand_termination_and_visit_discipline.2.2.1 diamondSchema
     (fuelBound diamondSchema) "r" [] diamondChildren
     ["r:b", "b:d", "r:c", "c:d"] rfl⟩

/-- C4 counterexample: in `parallelSchema` (two foreign keys from `b` to
`a`, hence two parallel reverse relationship fields on `a`) a single
expansion visits the (sourceType, targetType) pair `("a", "b")` twice —
refuting the claim that each pair is visited at most once across the whole
expansion. -/
theorem expand_pair_visited_twice :
    (expandTree parallelSchema "a").map (fun res => pairsList "a" res.1)
      = some [("a", "b"), ("a", "b")]
    ∧ ¬ ([("a", "b"), ("a", "b")] : List (String × String)).Nodup :=
  ⟨rfl, by decide⟩

end DjangoRehiveExtras
